import Mathlib

/-!
Verification of the multi-tier cache subsystem and the page-layout engine
of the ptcg-placeholder card generator.

The Python source (src/utils/cache_manager.py, src/models.py,
src/pdf/page_layout.py, config/settings.py, config/constants.py) is
shallowly embedded: dict-backed stores become insertion-ordered
association lists, timestamps become natural numbers counted in hours,
payload values become a JSON-like inductive type, and the file system
backing the disk tier becomes an explicit list of files.
-/

namespace PTCG

/-- JSON-like cached payload (`data: Union[dict, list, str, int, float]`
in `src/models.py`). Floats are not needed by any claim and are folded
into the integer constructor. -/
inductive Val where
  | vInt : Int → Val
  | vStr : String → Val
  | vList : List Val → Val
  | vDict : List (String × Val) → Val

/-- Python truthiness of a payload value (`0`, `""`, `[]`, `{}` are falsy). -/
def Val.truthy : Val → Bool
  | .vInt n => n != 0
  | .vStr s => s != ""
  | .vList l => !l.isEmpty
  | .vDict l => !l.isEmpty

/-- `CacheEntry` from `src/models.py`. Time is a natural number counted in
hours (all TTL arithmetic in the source is whole hours). -/
structure CacheEntry where
  key : String
  data : Val
  created_at : Nat
  expires_at : Option Nat
  access_count : Nat
  last_accessed : Option Nat

/-- `CacheEntry.is_expired`: expired iff `expires_at` is set and strictly
in the past. -/
def CacheEntry.is_expired (now : Nat) (e : CacheEntry) : Bool :=
  match e.expires_at with
  | none => false
  | some t => now > t

/-- `CacheEntry.mark_accessed`: bump `access_count`, stamp `last_accessed`. -/
def CacheEntry.mark_accessed (now : Nat) (e : CacheEntry) : CacheEntry :=
  { e with access_count := e.access_count + 1, last_accessed := some now }

/-- The state of `MemoryCache` (`src/utils/cache_manager.py`). The Python
dict `_cache` is an insertion-ordered association list: assignment to an
existing key keeps its position, a new key is appended, matching CPython
dict iteration order, which `min` in `_evict_lru` depends on. -/
structure MemoryCache where
  cache : List (String × CacheEntry)
  max_size : Nat
  default_ttl_hours : Nat

namespace MemoryCache

/-- Dict assignment `self._cache[key] = entry`: replace in place or append. -/
def insertEntry (k : String) (e : CacheEntry) :
    List (String × CacheEntry) → List (String × CacheEntry)
  | [] => [(k, e)]
  | (k', e') :: rest =>
      if k' = k then (k, e) :: rest
      else (k', e') :: insertEntry k e rest

/-- Dict deletion `del self._cache[key]`: drop the first (only) binding. -/
def eraseKey (k : String) :
    List (String × CacheEntry) → List (String × CacheEntry)
  | [] => []
  | (k', e') :: rest => if k' = k then rest else (k', e') :: eraseKey k rest

/-- Dict membership/lookup `self._cache[key]`. -/
def lookup (s : MemoryCache) (k : String) : Option CacheEntry :=
  List.lookup k s.cache

/-- `MemoryCache.get`: miss on absent key; expired entries are purged and
reported as a miss; live entries are marked accessed and their data
returned. Returns the result together with the updated cache state. -/
def get (now : Nat) (k : String) (s : MemoryCache) :
    Option Val × MemoryCache :=
  match List.lookup k s.cache with
  | none => (none, s)
  | some e =>
    if e.is_expired now then
      (none, { s with cache := eraseKey k s.cache })
    else
      (some e.data,
       { s with cache := insertEntry k (e.mark_accessed now) s.cache })

/-- The sort key of `_evict_lru`: `last_accessed or created_at`
(a timestamp is always truthy in Python, so `or` is `getD`). -/
def accKey (e : CacheEntry) : Nat := e.last_accessed.getD e.created_at

/-- Python `min(keys, key=...)`: first strictly-smallest binding in
iteration order (`min` keeps the current best on ties). -/
def lruSel (best : String × CacheEntry) :
    List (String × CacheEntry) → String × CacheEntry
  | [] => best
  | p :: rest => lruSel (if accKey p.2 < accKey best.2 then p else best) rest

/-- `MemoryCache._evict_lru`: on a nonempty cache, delete the binding whose
`last_accessed or created_at` is minimal. -/
def evictLRU (c : List (String × CacheEntry)) : List (String × CacheEntry) :=
  match c with
  | [] => c
  | p :: rest => eraseKey (lruSel p rest).1 (p :: rest)

/-- Python `ttl_hours or default`: `None` and `0` are falsy. -/
def pyOr (t : Option Nat) (d : Nat) : Nat :=
  match t with
  | none => d
  | some n => if n = 0 then d else n

/-- The `CacheEntry(...)` literal built by `MemoryCache.set`: fresh
bookkeeping and `expires_at = now + ttl`. -/
def freshEntry (now : Nat) (k : String) (v : Val) (ttl : Nat) : CacheEntry :=
  { key := k, data := v, created_at := now,
    expires_at := some (now + ttl), access_count := 0,
    last_accessed := none }

/-- `MemoryCache.set`: evict when `len(self._cache) >= self.max_size`
(regardless of whether `key` is already present), then insert a fresh
entry whose `expires_at` is `now + (ttl_hours or default_ttl_hours)`. -/
def set (now : Nat) (k : String) (v : Val) (ttl_hours : Option Nat)
    (s : MemoryCache) : MemoryCache :=
  let c := if s.max_size ≤ s.cache.length then evictLRU s.cache else s.cache
  { s with cache :=
      insertEntry k (freshEntry now k v (pyOr ttl_hours s.default_ttl_hours)) c }

/-- `MemoryCache.delete`. -/
def delete (k : String) (s : MemoryCache) : Bool × MemoryCache :=
  if (List.lookup k s.cache).isSome then
    (true, { s with cache := eraseKey k s.cache })
  else (false, s)

/-- `MemoryCache.clear`. -/
def clear (s : MemoryCache) : MemoryCache := { s with cache := [] }

/-- One client-visible memory-tier operation, for stating the size bound
over arbitrary operation sequences. -/
inductive MemOp where
  | opGet (now : Nat) (k : String)
  | opSet (now : Nat) (k : String) (v : Val) (ttl : Option Nat)
  | opDel (k : String)
  | opClear

/-- Apply one operation to the memory tier, discarding the returned value. -/
def applyOp (s : MemoryCache) : MemOp → MemoryCache
  | .opGet now k => (s.get now k).2
  | .opSet now k v ttl => s.set now k v ttl
  | .opDel k => (delete k s).2
  | .opClear => s.clear

/-- Run a sequence of memory-tier operations. -/
def runOps (s : MemoryCache) : List MemOp → MemoryCache
  | [] => s
  | op :: rest => runOps (applyOp s op) rest

/-- The structural well-formedness of a memory tier holding at most
`max_size` entries: a positive bound, entry count within the bound, and
distinct keys (a Python dict cannot repeat keys). -/
abbrev SizeInv (s : MemoryCache) : Prop :=
  1 ≤ s.max_size ∧ s.cache.length ≤ s.max_size ∧
    (s.cache.map Prod.fst).Nodup

end MemoryCache

/-- Content of one on-disk cache file: either an unparseable/unreadable
file or a persisted record (same shape as `CacheEntry`, the JSON schema of
`FileCache.set`). -/
inductive FileContent where
  | corrupt
  | entry (e : CacheEntry)

/-- One file of the disk tier's `api_cache` directory, with the metadata
`_cleanup_if_needed` reads from `stat` (size in bytes, modification time). -/
structure CFile where
  name : String
  size : Nat
  mtime : Nat
  content : FileContent

mutual

/-- Serialized size of a payload, modelling `st_size` of the JSON file. -/
def valSize : Val → Nat
  | .vInt _ => 8
  | .vStr s => s.length + 2
  | .vList l => 2 + listValSize l
  | .vDict l => 2 + dictValSize l

/-- Serialized size of a JSON array body. -/
def listValSize : List Val → Nat
  | [] => 0
  | v :: rest => valSize v + 1 + listValSize rest

/-- Serialized size of a JSON object body. -/
def dictValSize : List (String × Val) → Nat
  | [] => 0
  | (s, v) :: rest => s.length + valSize v + 4 + dictValSize rest

end

/-- Serialized size of a persisted record (fixed field overhead plus the
payload). -/
def entrySize (e : CacheEntry) : Nat := 128 + e.key.length + valSize e.data

/-- `hashlib.md5(key).hexdigest()` is collision resistant; modelled as an
injective renaming of the key. -/
def hashName (k : String) : String := "h_" ++ k

/-- Configuration of `FileCache`: the size budget in megabytes. -/
structure FileCacheCfg where
  max_size_mb : Nat

namespace FileCache

/-- First file with a given name (paths are unique on a file system). -/
def findFile (name : String) : List CFile → Option CFile
  | [] => none
  | f :: rest => if f.name = name then some f else findFile name rest

/-- `unlink`: remove the file at a path. -/
def removeFile (name : String) (dir : List CFile) : List CFile :=
  dir.filter (fun f => f.name ≠ name)

/-- Writing to a path: overwrite the file with that name, or create it. -/
def writeFile (f : CFile) (dir : List CFile) : List CFile :=
  f :: removeFile f.name dir

/-- `sum(f.stat().st_size for f in glob)`. -/
def dirTotalSize (dir : List CFile) : Nat := (dir.map (·.size)).sum

/-- `sorted(files, key=lambda f: f.stat().st_mtime)`'s comparison. -/
def mtimeLe (a b : CFile) : Bool := a.mtime ≤ b.mtime

/-- `FileCache._cleanup_if_needed`: when the summed file sizes exceed
`max_size_mb` MB, delete the oldest quarter (`files[:len(files)//4]` of
the mtime-sorted listing); otherwise leave the directory alone. -/
def cleanup_if_needed (cfg : FileCacheCfg) (dir : List CFile) : List CFile :=
  if cfg.max_size_mb * 1024 * 1024 < dirTotalSize dir then
    (dir.mergeSort mtimeLe).drop (dir.length / 4)
  else dir

/-- `expires_at` computed by `FileCache.set`: `None` unless `ttl_hours`
is truthy. -/
def fileTtl (now : Nat) (ttl_hours : Option Nat) : Option Nat :=
  match ttl_hours with
  | none => none
  | some t => if t = 0 then none else some (now + t)

/-- The record `FileCache.set` serializes: `{key, data, created_at,
expires_at, access_count := 0, last_accessed := None}`. -/
def newEntryFor (now : Nat) (k : String) (v : Val)
    (ttl_hours : Option Nat) : CacheEntry :=
  { key := k, data := v, created_at := now,
    expires_at := fileTtl now ttl_hours, access_count := 0,
    last_accessed := none }

/-- The file `FileCache.set` writes for a key. -/
def newFileFor (now : Nat) (k : String) (v : Val)
    (ttl_hours : Option Nat) : CFile :=
  { name := hashName k, size := entrySize (newEntryFor now k v ttl_hours),
    mtime := now, content := .entry (newEntryFor now k v ttl_hours) }

/-- `FileCache.set`: run the size-budget cleanup, then serialize the
record to the key's file. -/
def set (cfg : FileCacheCfg) (now : Nat) (k : String) (v : Val)
    (ttl_hours : Option Nat) (dir : List CFile) : List CFile :=
  writeFile (newFileFor now k v ttl_hours) (cleanup_if_needed cfg dir)

/-- `FileCache.get`: absent file is a miss; a file that fails to parse is
a logged miss (never an exception); a persisted `expires_at` in the past
deletes the file and misses; otherwise the access bookkeeping is
rewritten in place and the payload returned. -/
def get (now : Nat) (k : String) (dir : List CFile) :
    Option Val × List CFile :=
  match findFile (hashName k) dir with
  | none => (none, dir)
  | some f =>
    match f.content with
    | .corrupt => (none, dir)
    | .entry e =>
      let e2 : CacheEntry :=
        { e with access_count := e.access_count + 1,
                 last_accessed := some now }
      let hit : Option Val × List CFile :=
        (some e.data,
         writeFile { f with mtime := now, content := .entry e2 } dir)
      match e.expires_at with
      | some t => if t < now then (none, removeFile f.name dir) else hit
      | none => hit

end FileCache

/-- `CACHE_KEYS['pokemon'].format(id=...)` (config/constants.py). -/
def pokemonKey (id : Nat) : String := "pokemon_" ++ toString id

/-- `CACHE_KEYS['species'].format(id=...)`. -/
def speciesKey (id : Nat) : String := "species_" ++ toString id

/-- `CACHE_KEYS['generation'].format(id=...)`. -/
def generationKey (id : Nat) : String := "generation_" ++ toString id

/-- `CacheManager` state: the memory tier plus the disk tier (its config
and directory). The image tier is untouched by the claims. -/
structure CacheManager where
  memory : MemoryCache
  fcfg : FileCacheCfg
  fdir : List CFile

namespace CacheManager

/-- `CacheManager.get_pokemon_data`: memory first (`is not None` test),
then disk; a disk hit is stored back into the memory tier with the
default TTL before being returned. -/
def get_pokemon_data (now : Nat) (id : Nat) (st : CacheManager) :
    Option Val × CacheManager :=
  let key := pokemonKey id
  match st.memory.get now key with
  | (some v, mem1) => (some v, { st with memory := mem1 })
  | (none, mem1) =>
    match FileCache.get now key st.fdir with
    | (some v, dir1) =>
      (some v, { st with memory := mem1.set now key v none, fdir := dir1 })
    | (none, dir1) => (none, { st with memory := mem1, fdir := dir1 })

/-- `a or b` on cache lookups: keep a truthy memory result, otherwise
fall through to the disk result. -/
def orGet (now : Nat) (key : String) (st : CacheManager) :
    Option Val × CacheManager :=
  match st.memory.get now key with
  | (some v, mem1) =>
    if v.truthy then (some v, { st with memory := mem1 })
    else
      match FileCache.get now key st.fdir with
      | (r2, dir1) => (r2, { st with memory := mem1, fdir := dir1 })
  | (none, mem1) =>
    match FileCache.get now key st.fdir with
    | (r2, dir1) => (r2, { st with memory := mem1, fdir := dir1 })

/-- `CacheManager.get_species_data`:
`self.memory_cache.get(key) or self.file_cache.get(key)`. -/
def get_species_data (now : Nat) (id : Nat) (st : CacheManager) :
    Option Val × CacheManager :=
  orGet now (speciesKey id) st

/-- `CacheManager.get_generation_data`:
`self.memory_cache.get(key) or self.file_cache.get(key)`. -/
def get_generation_data (now : Nat) (id : Nat) (st : CacheManager) :
    Option Val × CacheManager :=
  orGet now (generationKey id) st

end CacheManager

/-- Configuration read by `PageLayoutManager.__init__` (PDF_CONSTANTS and
`settings`): page, card, margin and nominal spacing dimensions in mm,
embedded as exact rationals. -/
structure LayoutCfg where
  a4_width_mm : ℚ
  a4_height_mm : ℚ
  card_width_mm : ℚ
  card_height_mm : ℚ
  margin_mm : ℚ
  card_spacing_mm : ℚ

/-- The default configuration: A4 210×297, card 63×88, margin 5,
nominal spacing 2 (config/constants.py, config/settings.py). -/
def defaultLayoutCfg : LayoutCfg :=
  { a4_width_mm := 210, a4_height_mm := 297,
    card_width_mm := 63, card_height_mm := 88,
    margin_mm := 5, card_spacing_mm := 2 }

/-- The fields of the layout dict returned by `calculate_optimal_layout`
that later computations consume. -/
structure LayoutResult where
  rows : Nat
  cols : Nat
  cards_per_page : Nat
  total_pages : Nat
  usable_width_mm : ℚ
  usable_height_mm : ℚ
  horizontal_spacing_mm : ℚ
  vertical_spacing_mm : ℚ

namespace PageLayoutManager

/-- `_calculate_cards_per_row`: `max(1, int((usable_width + spacing) //
(card_width + spacing)))`. Python `//` on floats is the floor. -/
def cardsPerRow (cfg : LayoutCfg) (usable_width : ℚ) : Nat :=
  let card_plus_spacing := cfg.card_width_mm + cfg.card_spacing_mm
  let max_cards : Int := ⌊(usable_width + cfg.card_spacing_mm) / card_plus_spacing⌋
  (max 1 max_cards).toNat

/-- `_calculate_cards_per_column`, symmetric in the height. -/
def cardsPerCol (cfg : LayoutCfg) (usable_height : ℚ) : Nat :=
  let card_plus_spacing := cfg.card_height_mm + cfg.card_spacing_mm
  let max_cards : Int := ⌊(usable_height + cfg.card_spacing_mm) / card_plus_spacing⌋
  (max 1 max_cards).toNat

/-- `_calculate_actual_horizontal_spacing`: distribute the leftover width
evenly over the `cols − 1` gaps; `0` when there is at most one column. -/
def actualHSpacing (cfg : LayoutCfg) (usable_width : ℚ) (cols : Nat) : ℚ :=
  if cols ≤ 1 then 0
  else (usable_width - cols * cfg.card_width_mm) / ((cols : ℚ) - 1)

/-- `_calculate_actual_vertical_spacing`, symmetric in the height. -/
def actualVSpacing (cfg : LayoutCfg) (usable_height : ℚ) (rows : Nat) : ℚ :=
  if rows ≤ 1 then 0
  else (usable_height - rows * cfg.card_height_mm) / ((rows : ℚ) - 1)

/-- `calculate_optimal_layout`: usable area, grid dimensions,
`cards_per_page = rows * cols`, `total_pages = (total_cards +
cards_per_page - 1) // cards_per_page`, recomputed actual spacings. -/
def calculate_optimal_layout (cfg : LayoutCfg) (total_cards : Nat) :
    LayoutResult :=
  let usable_width := cfg.a4_width_mm - 2 * cfg.margin_mm
  let usable_height := cfg.a4_height_mm - 2 * cfg.margin_mm
  let cols := cardsPerRow cfg usable_width
  let rows := cardsPerCol cfg usable_height
  let cards_per_page := rows * cols
  let total_pages := (total_cards + cards_per_page - 1) / cards_per_page
  { rows := rows, cols := cols,
    cards_per_page := cards_per_page, total_pages := total_pages,
    usable_width_mm := usable_width, usable_height_mm := usable_height,
    horizontal_spacing_mm := actualHSpacing cfg usable_width cols,
    vertical_spacing_mm := actualVSpacing cfg usable_height rows }

/-- `get_card_positions`: row-major double loop; the card at grid cell
`(row, col)` sits at `margin + col·(card_width + h_spacing)` and
`margin + row·(card_height + v_spacing)`. -/
def get_card_positions (cfg : LayoutCfg) (layout : LayoutResult) :
    List (ℚ × ℚ) :=
  (List.range layout.rows).flatMap (fun (row : Nat) =>
    (List.range layout.cols).map (fun (col : Nat) =>
      (cfg.margin_mm +
         (col : ℚ) * (cfg.card_width_mm + layout.horizontal_spacing_mm),
       cfg.margin_mm +
         (row : ℚ) * (cfg.card_height_mm + layout.vertical_spacing_mm))))

/-- `validate_layout`: the computed layout must have positive
`cards_per_page` and positive `total_pages`. -/
def validate_layout (cfg : LayoutCfg) (total_cards : Nat) : Bool :=
  let layout := calculate_optimal_layout cfg total_cards
  decide (0 < layout.cards_per_page) && decide (0 < layout.total_pages)

end PageLayoutManager

/-- The spec's §4.5 step-2 column formula
`max(1, floor((usable_width + spacing) / (card_width + spacing)))`,
stated verbatim for the refinement comparison with `cardsPerRow`. -/
def specColsFormula (cfg : LayoutCfg) : Int :=
  max 1 ⌊((cfg.a4_width_mm - 2 * cfg.margin_mm) + cfg.card_spacing_mm) /
    (cfg.card_width_mm + cfg.card_spacing_mm)⌋

/-- The spec's §4.5 step-2 row formula, symmetric in the height. -/
def specRowsFormula (cfg : LayoutCfg) : Int :=
  max 1 ⌊((cfg.a4_height_mm - 2 * cfg.margin_mm) + cfg.card_spacing_mm) /
    (cfg.card_height_mm + cfg.card_spacing_mm)⌋

theorem cardsPerRow_pos (cfg : LayoutCfg) (uw : ℚ) :
    1 ≤ PageLayoutManager.cardsPerRow cfg uw := by
  unfold PageLayoutManager.cardsPerRow
  simpa using Int.toNat_le_toNat (le_max_left 1 ⌊(uw + cfg.card_spacing_mm) /
      (cfg.card_width_mm + cfg.card_spacing_mm)⌋)

theorem cardsPerCol_pos (cfg : LayoutCfg) (uh : ℚ) :
    1 ≤ PageLayoutManager.cardsPerCol cfg uh := by
  unfold PageLayoutManager.cardsPerCol
  simpa using Int.toNat_le_toNat (le_max_left 1 ⌊(uh + cfg.card_spacing_mm) /
      (cfg.card_height_mm + cfg.card_spacing_mm)⌋)

theorem cards_per_page_pos (cfg : LayoutCfg) (n : Nat) :
    1 ≤ (PageLayoutManager.calculate_optimal_layout cfg n).cards_per_page := by
  unfold PageLayoutManager.calculate_optimal_layout
  exact Nat.one_le_iff_ne_zero.mpr (Nat.mul_ne_zero
    (Nat.one_le_iff_ne_zero.mp (cardsPerCol_pos cfg _))
    (Nat.one_le_iff_ne_zero.mp (cardsPerRow_pos cfg _)))

/-- C10: `validate_layout(0)` is `False`: the zero-card layout is computed
successfully with `cards_per_page > 0` but `total_pages = 0`, and the
validation helper requires `total_pages > 0`, so it reports the layout
invalid. -/
theorem C10_validate_zero_cards :
    PageLayoutManager.validate_layout defaultLayoutCfg 0 = false ∧
    0 < (PageLayoutManager.calculate_optimal_layout
          defaultLayoutCfg 0).cards_per_page ∧
    (PageLayoutManager.calculate_optimal_layout
          defaultLayoutCfg 0).total_pages = 0 := by
  refine ⟨?_, ?_, ?_⟩ <;>
    (norm_num [PageLayoutManager.validate_layout,
      PageLayoutManager.calculate_optimal_layout,
      PageLayoutManager.cardsPerRow, PageLayoutManager.cardsPerCol,
      defaultLayoutCfg]
     try decide)

/-- C4: `calculate_optimal_layout` computes `cols` and `rows` by the
spec's `max(1, floor((usable + spacing) / (card + spacing)))` formula,
`cards_per_page = rows * cols`, and `total_pages` as the ceiling of
`total_cards / cards_per_page`; with the default configuration this gives
cols = rows = 3, cards_per_page = 9, total_pages 3 for 20 cards, and
total_pages 0 for 0 cards (no division-by-zero failure is possible since
`cards_per_page ≥ 1`). -/
theorem C4_layout_formula (cfg : LayoutCfg) (n : Nat) :
    (((PageLayoutManager.calculate_optimal_layout cfg n).cols : Int) =
        specColsFormula cfg ∧
      ((PageLayoutManager.calculate_optimal_layout cfg n).rows : Int) =
        specRowsFormula cfg ∧
      (PageLayoutManager.calculate_optimal_layout cfg n).cards_per_page =
        (PageLayoutManager.calculate_optimal_layout cfg n).rows *
          (PageLayoutManager.calculate_optimal_layout cfg n).cols ∧
      (PageLayoutManager.calculate_optimal_layout cfg n).total_pages =
        n ⌈/⌉ (PageLayoutManager.calculate_optimal_layout cfg n).cards_per_page ∧
      (PageLayoutManager.calculate_optimal_layout cfg 0).total_pages = 0) ∧
    ((PageLayoutManager.calculate_optimal_layout defaultLayoutCfg 20).cols = 3 ∧
      (PageLayoutManager.calculate_optimal_layout defaultLayoutCfg 20).rows = 3 ∧
      (PageLayoutManager.calculate_optimal_layout
        defaultLayoutCfg 20).cards_per_page = 9 ∧
      (PageLayoutManager.calculate_optimal_layout
        defaultLayoutCfg 20).total_pages = 3) := by
  constructor
  · refine ⟨?_, ?_, rfl, ?_, ?_⟩
    · show ((PageLayoutManager.cardsPerRow cfg _ : Nat) : Int) = _
      unfold PageLayoutManager.cardsPerRow specColsFormula
      exact Int.toNat_of_nonneg (le_trans zero_le_one (le_max_left _ _))
    · show ((PageLayoutManager.cardsPerCol cfg _ : Nat) : Int) = _
      unfold PageLayoutManager.cardsPerCol specRowsFormula
      exact Int.toNat_of_nonneg (le_trans zero_le_one (le_max_left _ _))
    · rw [Nat.ceilDiv_eq_add_pred_div]; rfl
    · have hpos := cards_per_page_pos cfg 0
      show (0 + (PageLayoutManager.calculate_optimal_layout cfg 0).cards_per_page
            - 1) /
          (PageLayoutManager.calculate_optimal_layout cfg 0).cards_per_page = 0
      exact Nat.div_eq_of_lt (by omega)
  · refine ⟨?_, ?_, ?_, ?_⟩ <;>
      (norm_num [PageLayoutManager.calculate_optimal_layout,
        PageLayoutManager.cardsPerRow, PageLayoutManager.cardsPerCol,
        defaultLayoutCfg]
       try decide)

theorem lookup_insertEntry (k : String) (e : CacheEntry)
    (c : List (String × CacheEntry)) :
    List.lookup k (MemoryCache.insertEntry k e c) = some e := by
  induction c with
  | nil => simp [MemoryCache.insertEntry, List.lookup]
  | cons p rest ih =>
    rcases p with ⟨k', e'⟩
    by_cases h : k' = k
    · simp [MemoryCache.insertEntry, h, List.lookup]
    · simp [MemoryCache.insertEntry, h, List.lookup, ih,
        beq_eq_false_iff_ne.mpr (Ne.symm h)]

/-- C2 (counterexample): with `default_ttl_hours = 1`, calling
`MemoryCache.set` at time 0 with the falsy `ttl_hours = None` stores an
entry whose `expires_at` is `some 1` (`now + default_ttl_hours`), not
`None`: `ttl = ttl_hours or self.default_ttl_hours` never leaves the
expiry unset. -/
theorem C2_falsy_ttl_counterexample :
    MemoryCache.lookup
        (MemoryCache.set 0 "k" (Val.vInt 1) none ⟨[], 1000, 1⟩) "k" =
      some { key := "k", data := Val.vInt 1, created_at := 0,
             expires_at := some 1, access_count := 0,
             last_accessed := none } ∧
    some 1 ≠ (none : Option Nat) := ⟨rfl, by simp⟩

/-- C2 (amended): every `MemoryCache.set(key, data, ttl_hours)` stores an
entry whose `expires_at` is `now + ttl` where `ttl` is `ttl_hours` when
truthy and `default_ttl_hours` when `ttl_hours` is falsy (`None` or `0`);
the stored expiry is never `None`. -/
theorem C2_memory_set_expiry (s : MemoryCache) (now : Nat) (k : String)
    (v : Val) (ttl_hours : Option Nat) :
    (∃ e, MemoryCache.lookup (MemoryCache.set now k v ttl_hours s) k = some e ∧
      e.expires_at =
        some (now + MemoryCache.pyOr ttl_hours s.default_ttl_hours) ∧
      e.data = v ∧ e.created_at = now) ∧
    (∀ t, ttl_hours = some t → t ≠ 0 →
      MemoryCache.pyOr ttl_hours s.default_ttl_hours = t) ∧
    (ttl_hours = none ∨ ttl_hours = some 0 →
      MemoryCache.pyOr ttl_hours s.default_ttl_hours = s.default_ttl_hours) := by
  refine ⟨⟨MemoryCache.freshEntry now k v
      (MemoryCache.pyOr ttl_hours s.default_ttl_hours), ?_, rfl, rfl, rfl⟩,
    ?_, ?_⟩
  · exact lookup_insertEntry k _ _
  · rintro t rfl ht
    simp [MemoryCache.pyOr, ht]
  · rintro (rfl | rfl) <;> simp [MemoryCache.pyOr]

/-- C2 (amended) witness at `ttl_hours = None`, `default_ttl_hours = 1`. -/
theorem C2_memory_set_expiry_witness :
    (∃ e, MemoryCache.lookup
        (MemoryCache.set 0 "k" (Val.vInt 1) none ⟨[], 1000, 1⟩) "k" = some e ∧
      e.expires_at = some (0 + MemoryCache.pyOr none 1) ∧
      e.data = Val.vInt 1 ∧ e.created_at = 0) ∧
    (∀ t, (none : Option Nat) = some t → t ≠ 0 →
      MemoryCache.pyOr none 1 = t) ∧
    ((none : Option Nat) = none ∨ (none : Option Nat) = some 0 →
      MemoryCache.pyOr none 1 = 1) :=
  C2_memory_set_expiry ⟨[], 1000, 1⟩ 0 "k" (Val.vInt 1) none

/-- C6: `MemoryCache.get` is total (no exception on any input); a missing
key is a miss leaving the state unchanged; an expired entry
(`is_expired ⇔ expires_at ≠ None ∧ now > expires_at`) is deleted and
reported as a miss; a live entry is returned with `access_count`
incremented and `last_accessed` stamped to `now`. -/
theorem C6_memory_get_cases (s : MemoryCache) (now : Nat) (k : String) :
    (∀ e : CacheEntry,
      e.is_expired now = true ↔ ∃ t, e.expires_at = some t ∧ t < now) ∧
    (MemoryCache.lookup s k = none → MemoryCache.get now k s = (none, s)) ∧
    (∀ e, MemoryCache.lookup s k = some e → e.is_expired now = true →
      MemoryCache.get now k s =
        (none, { s with cache := MemoryCache.eraseKey k s.cache })) ∧
    (∀ e : CacheEntry,
      (e.mark_accessed now).access_count = e.access_count + 1 ∧
      (e.mark_accessed now).last_accessed = some now ∧
      (e.mark_accessed now).data = e.data) ∧
    (∀ e, MemoryCache.lookup s k = some e → e.is_expired now = false →
      MemoryCache.get now k s =
        (some e.data, { s with cache :=
          MemoryCache.insertEntry k (e.mark_accessed now) s.cache })) := by
  refine ⟨?_, ?_, ?_, ?_, ?_⟩
  · intro e
    unfold CacheEntry.is_expired
    cases h : e.expires_at <;> simp [h]
  · intro h
    simp only [MemoryCache.lookup] at h
    simp [MemoryCache.get, h]
  · intro e he hexp
    simp only [MemoryCache.lookup] at he
    simp [MemoryCache.get, he, hexp]
  · intro e
    exact ⟨rfl, rfl, rfl⟩
  · intro e he hexp
    simp only [MemoryCache.lookup] at he
    simp [MemoryCache.get, he, hexp]

theorem findFile_writeFile (f : CFile) (dir : List CFile) :
    FileCache.findFile f.name (FileCache.writeFile f dir) = some f := by
  simp [FileCache.writeFile, FileCache.findFile]

theorem findFile_removeFile (n : String) (dir : List CFile) :
    FileCache.findFile n (FileCache.removeFile n dir) = none := by
  induction dir with
  | nil => simp [FileCache.removeFile, FileCache.findFile]
  | cons f rest ih =>
    by_cases h : f.name = n
    · simpa [FileCache.removeFile, h] using ih
    · simpa [FileCache.removeFile, FileCache.findFile, h] using ih

/-- C5: a value written through `FileCache.set` and read back through
`FileCache.get` before its expiry (and with no intervening operation) is
returned structurally equal to the original. -/
theorem C5_disk_roundtrip (cfg : FileCacheCfg) (dir : List CFile)
    (now now' : Nat) (k : String) (v : Val) (ttl_hours : Option Nat)
    (hlive : ∀ t, FileCache.fileTtl now ttl_hours = some t → ¬ t < now') :
    (FileCache.get now' k (FileCache.set cfg now k v ttl_hours dir)).1 =
      some v := by
  have hf := findFile_writeFile (FileCache.newFileFor now k v ttl_hours)
    (FileCache.cleanup_if_needed cfg dir)
  rw [show (FileCache.newFileFor now k v ttl_hours).name = hashName k
      from rfl] at hf
  cases h : FileCache.fileTtl now ttl_hours with
  | none =>
    simp only [FileCache.newFileFor, FileCache.newEntryFor, h] at hf
    simp [FileCache.set, FileCache.get, hf, FileCache.newFileFor,
      FileCache.newEntryFor, h]
  | some t =>
    simp only [FileCache.newFileFor, FileCache.newEntryFor, h] at hf
    simp [FileCache.set, FileCache.get, hf, FileCache.newFileFor,
      FileCache.newEntryFor, h, hlive t h]

/-- C5 witness: write at hour 0 with a 24h TTL, read back at hour 0. -/
theorem C5_disk_roundtrip_witness :
    (FileCache.get 0 "k" (FileCache.set ⟨100⟩ 0 "k" (Val.vInt 5)
        (some 24) [])).1 = some (Val.vInt 5) :=
  C5_disk_roundtrip ⟨100⟩ [] 0 0 "k" (Val.vInt 5) (some 24)
    (by intro t ht; simp [FileCache.fileTtl] at ht; omega)

/-- C8: `FileCache.get` is a total function that never propagates a
failure: a missing file is a miss leaving the directory unchanged; an
unreadable/unparseable file is a (logged) miss leaving the directory
unchanged; a file whose persisted `expires_at` is in the past is deleted
from the directory (no file of that name remains) and reported as a
miss. -/
theorem C8_disk_get_never_fails (now : Nat) (k : String)
    (dir : List CFile) :
    (FileCache.findFile (hashName k) dir = none →
      FileCache.get now k dir = (none, dir)) ∧
    (∀ f, FileCache.findFile (hashName k) dir = some f →
      f.content = .corrupt →
      FileCache.get now k dir = (none, dir)) ∧
    (∀ f e t, FileCache.findFile (hashName k) dir = some f →
      f.content = .entry e → e.expires_at = some t → t < now →
      FileCache.get now k dir = (none, FileCache.removeFile f.name dir) ∧
      FileCache.findFile f.name (FileCache.removeFile f.name dir) = none) := by
  refine ⟨?_, ?_, ?_⟩
  · intro h
    unfold FileCache.get
    rw [h]
  · intro f hf hc
    simp [FileCache.get, hf, hc]
  · intro f e t hf hc he hlt
    refine ⟨?_, findFile_removeFile f.name dir⟩
    simp [FileCache.get, hf, hc, he, hlt]

/-- C8 witness: a directory holding one corrupt file for the key: the
read misses and the directory is untouched. -/
theorem C8_disk_get_never_fails_witness :
    FileCache.get 7 "k" [⟨hashName "k", 3, 0, .corrupt⟩] =
      (none, [⟨hashName "k", 3, 0, .corrupt⟩]) :=
  (C8_disk_get_never_fails 7 "k" [⟨hashName "k", 3, 0, .corrupt⟩]).2.1
    ⟨hashName "k", 3, 0, .corrupt⟩ (by simp [FileCache.findFile]) rfl

theorem memoryGet_of_lookup_none (s : MemoryCache) (now : Nat) (k : String)
    (h : List.lookup k s.cache = none) :
    MemoryCache.get now k s = (none, s) := by
  simp [MemoryCache.get, h]

/-- C1 (counterexample): in the species namespace a Memory-Tier miss
followed by a Disk-Tier hit does NOT promote the value: starting from an
empty memory tier and a disk file for `species_1` holding 7,
`get_species_data` returns 7 but afterwards the memory tier still has no
entry for `species_1`. -/
theorem C1_counterexample :
    (CacheManager.get_species_data 5 1
        ⟨⟨[], 1000, 1⟩, ⟨100⟩,
         [⟨hashName "species_1", 50, 0,
           .entry ⟨"species_1", Val.vInt 7, 0, none, 0, none⟩⟩]⟩).1 =
      some (Val.vInt 7) ∧
    MemoryCache.lookup
      ((CacheManager.get_species_data 5 1
        ⟨⟨[], 1000, 1⟩, ⟨100⟩,
         [⟨hashName "species_1", 50, 0,
           .entry ⟨"species_1", Val.vInt 7, 0, none, 0, none⟩⟩]⟩).2).memory
      "species_1" = none :=
  ⟨rfl, rfl⟩

/-- C1 (amended): on a Memory-Tier miss, only the pokemon-record
namespace promotes a Disk-Tier hit into the Memory Tier (a Memory set
with the default TTL, i.e. `ttl_hours = None`) before returning it; the
species and generation namespaces return the Disk-Tier result while
leaving the Memory Tier unchanged (no promotion); in all three
namespaces a miss in both tiers returns absent. -/
theorem C1_read_path (st : CacheManager) (now id : Nat) :
    (MemoryCache.lookup st.memory (pokemonKey id) = none →
      (∀ v dir1, FileCache.get now (pokemonKey id) st.fdir = (some v, dir1) →
        CacheManager.get_pokemon_data now id st =
          (some v, { st with
            memory := MemoryCache.set now (pokemonKey id) v none st.memory,
            fdir := dir1 })) ∧
      (∀ dir1, FileCache.get now (pokemonKey id) st.fdir = (none, dir1) →
        CacheManager.get_pokemon_data now id st =
          (none, { st with fdir := dir1 }))) ∧
    (MemoryCache.lookup st.memory (speciesKey id) = none →
      ∀ r dir1, FileCache.get now (speciesKey id) st.fdir = (r, dir1) →
        CacheManager.get_species_data now id st =
          (r, { st with fdir := dir1 })) ∧
    (MemoryCache.lookup st.memory (generationKey id) = none →
      ∀ r dir1, FileCache.get now (generationKey id) st.fdir = (r, dir1) →
        CacheManager.get_generation_data now id st =
          (r, { st with fdir := dir1 })) := by
  refine ⟨?_, ?_, ?_⟩
  · intro hmem
    have hget := memoryGet_of_lookup_none st.memory now (pokemonKey id) hmem
    constructor
    · intro v dir1 hfile
      simp [CacheManager.get_pokemon_data, hget, hfile]
    · intro dir1 hfile
      simp [CacheManager.get_pokemon_data, hget, hfile]
  · intro hmem r dir1 hfile
    have hget := memoryGet_of_lookup_none st.memory now (speciesKey id) hmem
    simp [CacheManager.get_species_data, CacheManager.orGet, hget, hfile]
  · intro hmem r dir1 hfile
    have hget := memoryGet_of_lookup_none st.memory now (generationKey id) hmem
    simp [CacheManager.get_generation_data, CacheManager.orGet, hget, hfile]

/-- C1 (amended) witness: the pokemon namespace at a concrete state
(empty memory, disk file holding 9): the disk hit is promoted into the
memory tier with the default TTL. -/
theorem C1_read_path_witness :
    CacheManager.get_pokemon_data 5 1
        ⟨⟨[], 1000, 1⟩, ⟨100⟩,
         [⟨hashName "pokemon_1", 50, 0,
           .entry ⟨"pokemon_1", Val.vInt 9, 0, none, 0, none⟩⟩]⟩ =
      (some (Val.vInt 9),
       { memory := MemoryCache.set 5 (pokemonKey 1) (Val.vInt 9) none
           ⟨[], 1000, 1⟩,
         fcfg := ⟨100⟩,
         fdir := (FileCache.get 5 (pokemonKey 1)
           [⟨hashName "pokemon_1", 50, 0,
             .entry ⟨"pokemon_1", Val.vInt 9, 0, none, 0, none⟩⟩]).2 }) :=
  ((C1_read_path
      ⟨⟨[], 1000, 1⟩, ⟨100⟩,
       [⟨hashName "pokemon_1", 50, 0,
         .entry ⟨"pokemon_1", Val.vInt 9, 0, none, 0, none⟩⟩]⟩ 5 1).1
    rfl).1 (Val.vInt 9)
    (FileCache.get 5 (pokemonKey 1)
      [⟨hashName "pokemon_1", 50, 0,
        .entry ⟨"pokemon_1", Val.vInt 9, 0, none, 0, none⟩⟩]).2
    rfl

theorem insertEntry_mem_of_ne (k : String) (e : CacheEntry)
    (c : List (String × CacheEntry)) (p : String × CacheEntry)
    (hp : p ∈ c) (hne : p.1 ≠ k) :
    p ∈ MemoryCache.insertEntry k e c := by
  induction c with
  | nil => simp at hp
  | cons q rest ih =>
    rcases q with ⟨k', e'⟩
    rcases List.mem_cons.mp hp with rfl | hp'
    · have h : ¬ k' = k := hne
      simp [MemoryCache.insertEntry, h]
    · by_cases h : k' = k
      · simp [MemoryCache.insertEntry, h]
        right
        exact hp'
      · simp [MemoryCache.insertEntry, h]
        right
        exact ih hp'

theorem insertEntry_keys_of_mem (k : String) (e : CacheEntry)
    (c : List (String × CacheEntry)) (hk : k ∈ c.map Prod.fst) :
    (MemoryCache.insertEntry k e c).map Prod.fst = c.map Prod.fst := by
  induction c with
  | nil => simp at hk
  | cons q rest ih =>
    rcases q with ⟨k', e'⟩
    by_cases h : k' = k
    · simp [MemoryCache.insertEntry, h]
    · simp only [List.map_cons] at hk
      rcases List.mem_cons.mp hk with h' | h'
      · exact absurd h'.symm h
      · simp [MemoryCache.insertEntry, h, ih h']

theorem insertEntry_keys_of_not_mem (k : String) (e : CacheEntry)
    (c : List (String × CacheEntry)) (hk : k ∉ c.map Prod.fst) :
    (MemoryCache.insertEntry k e c).map Prod.fst = c.map Prod.fst ++ [k] := by
  induction c with
  | nil => simp [MemoryCache.insertEntry]
  | cons q rest ih =>
    rcases q with ⟨k', e'⟩
    simp only [List.map_cons, List.mem_cons] at hk
    push_neg at hk
    simp [MemoryCache.insertEntry, Ne.symm hk.1, ih hk.2]

theorem eraseKey_sublist (k : String) (c : List (String × CacheEntry)) :
    (MemoryCache.eraseKey k c).Sublist c := by
  induction c with
  | nil => simp [MemoryCache.eraseKey]
  | cons q rest ih =>
    rcases q with ⟨k', e'⟩
    by_cases h : k' = k
    · simpa [MemoryCache.eraseKey, h] using List.sublist_cons_self _ _
    · simpa [MemoryCache.eraseKey, h] using ih.cons₂ (k', e')

theorem eraseKey_length_of_mem (k : String)
    (c : List (String × CacheEntry)) (hk : k ∈ c.map Prod.fst) :
    (MemoryCache.eraseKey k c).length + 1 = c.length := by
  induction c with
  | nil => simp at hk
  | cons q rest ih =>
    rcases q with ⟨k', e'⟩
    by_cases h : k' = k
    · simp [MemoryCache.eraseKey, h]
    · simp only [List.map_cons, List.mem_cons] at hk
      rcases hk with h' | h'
      · exact absurd h'.symm h
      · simp [MemoryCache.eraseKey, h, ih h']

theorem lruSel_mem (c : List (String × CacheEntry))
    (p : String × CacheEntry) :
    MemoryCache.lruSel p c ∈ p :: c := by
  induction c generalizing p with
  | nil => simp [MemoryCache.lruSel]
  | cons q rest ih =>
    show MemoryCache.lruSel
      (if MemoryCache.accKey q.2 < MemoryCache.accKey p.2 then q else p)
      rest ∈ p :: q :: rest
    rcases List.mem_cons.mp (ih
      (if MemoryCache.accKey q.2 < MemoryCache.accKey p.2 then q else p))
      with h | h
    · rw [h]
      by_cases hc : MemoryCache.accKey q.2 < MemoryCache.accKey p.2 <;>
        simp [hc]
    · simp [h]

theorem lruSel_min (c : List (String × CacheEntry))
    (p : String × CacheEntry) :
    ∀ q ∈ p :: c, MemoryCache.accKey (MemoryCache.lruSel p c).2 ≤
      MemoryCache.accKey q.2 := by
  induction c generalizing p with
  | nil =>
    intro q hq
    rcases List.mem_cons.mp hq with rfl | h
    · simp [MemoryCache.lruSel]
    · simp at h
  | cons r rest ih =>
    intro q hq
    show MemoryCache.accKey (MemoryCache.lruSel
      (if MemoryCache.accKey r.2 < MemoryCache.accKey p.2 then r else p)
      rest).2 ≤ MemoryCache.accKey q.2
    set b := if MemoryCache.accKey r.2 < MemoryCache.accKey p.2 then r else p
      with hb
    have hb_le_p : MemoryCache.accKey b.2 ≤ MemoryCache.accKey p.2 := by
      by_cases hc : MemoryCache.accKey r.2 < MemoryCache.accKey p.2 <;>
        simp [hb, hc] <;> omega
    have hb_le_r : MemoryCache.accKey b.2 ≤ MemoryCache.accKey r.2 := by
      by_cases hc : MemoryCache.accKey r.2 < MemoryCache.accKey p.2 <;>
        simp [hb, hc] <;> omega
    have hsel_le_b : MemoryCache.accKey (MemoryCache.lruSel b rest).2 ≤
        MemoryCache.accKey b.2 := ih b b (List.mem_cons_self b rest)
    rcases List.mem_cons.mp hq with rfl | hq'
    · exact le_trans hsel_le_b hb_le_p
    · rcases List.mem_cons.mp hq' with rfl | hq''
      · exact le_trans hsel_le_b hb_le_r
      · exact ih b q (List.mem_cons_of_mem b hq'')

theorem lookup_mem_keys (k : String) (e : CacheEntry)
    (c : List (String × CacheEntry)) (h : List.lookup k c = some e) :
    k ∈ c.map Prod.fst := by
  induction c with
  | nil => simp [List.lookup] at h
  | cons q rest ih =>
    rcases q with ⟨k', e'⟩
    by_cases hk : k = k'
    · simp [hk]
    · simp only [List.lookup, beq_eq_false_iff_ne.mpr hk] at h
      simp [ih h]

theorem set_max_size (s : MemoryCache) (now : Nat) (k : String) (v : Val)
    (ttl : Option Nat) :
    (MemoryCache.set now k v ttl s).max_size = s.max_size := rfl

theorem sizeInv_set (s : MemoryCache) (now : Nat) (k : String) (v : Val)
    (ttl : Option Nat) (h : MemoryCache.SizeInv s) :
    MemoryCache.SizeInv (MemoryCache.set now k v ttl s) := by
  obtain ⟨hmax, hlen, hnd⟩ := h
  by_cases hful : s.max_size ≤ s.cache.length
  · obtain ⟨p, rest, hc⟩ : ∃ p rest, s.cache = p :: rest := by
      cases hcc : s.cache with
      | nil => rw [hcc] at hlen hful; simp at hful; omega
      | cons p rest => exact ⟨p, rest, rfl⟩
    have hsel := lruSel_mem rest p
    have hselkey : (MemoryCache.lruSel p rest).1 ∈
        (p :: rest).map Prod.fst :=
      List.mem_map_of_mem Prod.fst hsel
    have hsub := eraseKey_sublist (MemoryCache.lruSel p rest).1 (p :: rest)
    have hlen1 := eraseKey_length_of_mem (MemoryCache.lruSel p rest).1
      (p :: rest) hselkey
    have hnd1 : ((MemoryCache.eraseKey (MemoryCache.lruSel p rest).1
        (p :: rest)).map Prod.fst).Nodup := by
      rw [hc] at hnd
      exact hnd.sublist (hsub.map Prod.fst)
    have hful' : s.max_size ≤ (p :: rest).length := hc ▸ hful
    have hgoal : (MemoryCache.set now k v ttl s).cache =
        MemoryCache.insertEntry k
          (MemoryCache.freshEntry now k v
            (MemoryCache.pyOr ttl s.default_ttl_hours))
          (MemoryCache.eraseKey (MemoryCache.lruSel p rest).1 (p :: rest)) := by
      simp only [List.length_cons] at hful'
      simp [MemoryCache.set, hc, hful', MemoryCache.evictLRU]
    refine ⟨hmax, ?_, ?_⟩
    · rw [hgoal, set_max_size]
      by_cases hk : k ∈ (MemoryCache.eraseKey (MemoryCache.lruSel p rest).1
          (p :: rest)).map Prod.fst
      · have hkeys := insertEntry_keys_of_mem k
          (MemoryCache.freshEntry now k v
            (MemoryCache.pyOr ttl s.default_ttl_hours)) _ hk
        have := congrArg List.length hkeys
        simp only [List.length_map] at this
        rw [hc] at hlen
        omega
      · have hkeys := insertEntry_keys_of_not_mem k
          (MemoryCache.freshEntry now k v
            (MemoryCache.pyOr ttl s.default_ttl_hours)) _ hk
        have := congrArg List.length hkeys
        simp only [List.length_map, List.length_append, List.length_cons,
          List.length_nil] at this
        rw [hc] at hlen
        simp only [List.length_cons] at hlen hlen1
        omega
    · rw [hgoal]
      by_cases hk : k ∈ (MemoryCache.eraseKey (MemoryCache.lruSel p rest).1
          (p :: rest)).map Prod.fst
      · rw [insertEntry_keys_of_mem k
          (MemoryCache.freshEntry now k v
            (MemoryCache.pyOr ttl s.default_ttl_hours)) _ hk]
        exact hnd1
      · rw [insertEntry_keys_of_not_mem k
          (MemoryCache.freshEntry now k v
            (MemoryCache.pyOr ttl s.default_ttl_hours)) _ hk]
        simp [List.nodup_append, hnd1, hk]
  · have hgoal : (MemoryCache.set now k v ttl s).cache =
        MemoryCache.insertEntry k
          (MemoryCache.freshEntry now k v
            (MemoryCache.pyOr ttl s.default_ttl_hours)) s.cache := by
      simp [MemoryCache.set, hful]
    refine ⟨hmax, ?_, ?_⟩
    · rw [hgoal, set_max_size]
      by_cases hk : k ∈ s.cache.map Prod.fst
      · have := congrArg List.length (insertEntry_keys_of_mem k
          (MemoryCache.freshEntry now k v
            (MemoryCache.pyOr ttl s.default_ttl_hours)) _ hk)
        simp only [List.length_map] at this
        omega
      · have := congrArg List.length (insertEntry_keys_of_not_mem k
          (MemoryCache.freshEntry now k v
            (MemoryCache.pyOr ttl s.default_ttl_hours)) _ hk)
        simp only [List.length_map, List.length_append, List.length_cons,
          List.length_nil] at this
        omega
    · rw [hgoal]
      by_cases hk : k ∈ s.cache.map Prod.fst
      · rw [insertEntry_keys_of_mem k
          (MemoryCache.freshEntry now k v
            (MemoryCache.pyOr ttl s.default_ttl_hours)) _ hk]
        exact hnd
      · rw [insertEntry_keys_of_not_mem k
          (MemoryCache.freshEntry now k v
            (MemoryCache.pyOr ttl s.default_ttl_hours)) _ hk]
        simp [List.nodup_append, hnd, hk]

theorem applyOp_max_size (s : MemoryCache) (op : MemoryCache.MemOp) :
    (MemoryCache.applyOp s op).max_size = s.max_size := by
  cases op with
  | opGet now k =>
    show (MemoryCache.get now k s).2.max_size = s.max_size
    unfold MemoryCache.get
    cases List.lookup k s.cache with
    | none => rfl
    | some e => by_cases hexp : e.is_expired now = true <;> simp [hexp]
  | opSet now k v ttl => rfl
  | opDel k =>
    show (MemoryCache.delete k s).2.max_size = s.max_size
    unfold MemoryCache.delete
    split <;> rfl
  | opClear => rfl

theorem runOps_max_size (ops : List MemoryCache.MemOp) (s : MemoryCache) :
    (MemoryCache.runOps s ops).max_size = s.max_size := by
  induction ops generalizing s with
  | nil => rfl
  | cons op rest ih =>
    rw [show MemoryCache.runOps s (op :: rest) =
        MemoryCache.runOps (MemoryCache.applyOp s op) rest from rfl,
      ih (MemoryCache.applyOp s op), applyOp_max_size]

theorem sizeInv_applyOp (s : MemoryCache) (op : MemoryCache.MemOp)
    (h : MemoryCache.SizeInv s) :
    MemoryCache.SizeInv (MemoryCache.applyOp s op) := by
  obtain ⟨hmax, hlen, hnd⟩ := h
  cases op with
  | opGet now k =>
    show MemoryCache.SizeInv (MemoryCache.get now k s).2
    cases hl : List.lookup k s.cache with
    | none =>
      have h2 : (MemoryCache.get now k s).2 = s := by
        simp [MemoryCache.get, hl]
      rw [h2]
      exact ⟨hmax, hlen, hnd⟩
    | some e =>
      by_cases hexp : e.is_expired now = true
      · have hsub := eraseKey_sublist k s.cache
        have h2 : (MemoryCache.get now k s).2 =
            { s with cache := MemoryCache.eraseKey k s.cache } := by
          simp [MemoryCache.get, hl, hexp]
        rw [h2]
        exact ⟨hmax, le_trans hsub.length_le hlen,
          hnd.sublist (hsub.map Prod.fst)⟩
      · have hkmem := lookup_mem_keys k e s.cache hl
        have hkeys := insertEntry_keys_of_mem k
          (e.mark_accessed now) s.cache hkmem
        have hlength := congrArg List.length hkeys
        simp only [List.length_map] at hlength
        have h2 : (MemoryCache.get now k s).2 =
            { s with cache :=
              MemoryCache.insertEntry k (e.mark_accessed now) s.cache } := by
          simp [MemoryCache.get, hl, hexp]
        rw [h2]
        refine ⟨hmax, ?_, hkeys ▸ hnd⟩
        show (MemoryCache.insertEntry k (e.mark_accessed now)
          s.cache).length ≤ s.max_size
        omega
  | opSet now k v ttl => exact sizeInv_set s now k v ttl ⟨hmax, hlen, hnd⟩
  | opDel k =>
    show MemoryCache.SizeInv (MemoryCache.delete k s).2
    have hsub := eraseKey_sublist k s.cache
    by_cases hl : (List.lookup k s.cache).isSome
    · have h2 : (MemoryCache.delete k s).2 =
          { s with cache := MemoryCache.eraseKey k s.cache } := by
        simp [MemoryCache.delete, hl]
      rw [h2]
      exact ⟨hmax, le_trans hsub.length_le hlen,
        hnd.sublist (hsub.map Prod.fst)⟩
    · have h2 : (MemoryCache.delete k s).2 = s := by
        simp [MemoryCache.delete, hl]
      rw [h2]
      exact ⟨hmax, hlen, hnd⟩
  | opClear =>
    refine ⟨hmax, ?_, ?_⟩ <;>
      simp [MemoryCache.applyOp, MemoryCache.clear]

theorem sizeInv_runOps (ops : List MemoryCache.MemOp) (s : MemoryCache)
    (h : MemoryCache.SizeInv s) :
    MemoryCache.SizeInv (MemoryCache.runOps s ops) := by
  induction ops generalizing s with
  | nil => exact h
  | cons op rest ih => exact ih _ (sizeInv_applyOp s op h)

/-- C3 (counterexample): with `max_size = 2` and both slots filled,
setting the already-present key `"b"` still evicts: the LRU entry `"a"`
disappears even though the insertion (an overwrite) would not have grown
the dict. The claim's "and key not already present" condition is not in
the code: `MemoryCache.set` evicts whenever `len(cache) >= max_size`. -/
theorem C3_counterexample :
    (MemoryCache.lookup
      ⟨[("a", ⟨"a", Val.vInt 1, 0, none, 0, none⟩),
        ("b", ⟨"b", Val.vInt 2, 1, none, 0, none⟩)], 2, 1⟩ "b").isSome =
      true ∧
    MemoryCache.lookup
      (MemoryCache.set 5 "b" (Val.vInt 3) none
        ⟨[("a", ⟨"a", Val.vInt 1, 0, none, 0, none⟩),
          ("b", ⟨"b", Val.vInt 2, 1, none, 0, none⟩)], 2, 1⟩) "a" = none :=
  ⟨rfl, rfl⟩

/-- C3 (amended): `MemoryCache.set` evicts exactly one entry — one whose
`last_accessed` (falling back to `created_at` when never accessed) is
minimal over the whole cache — if and only if the current entry count is
at least `max_size` (whether or not the key is already present); below
the bound it inserts without removing any other key's entry; and for any
`max_size ≥ 1`, starting from a well-formed state within the bound, the
entry count stays within `max_size` after any sequence of
get/set/delete/clear operations. -/
theorem C3_lru_eviction (s : MemoryCache) (now : Nat) (k : String)
    (v : Val) (ttl : Option Nat) :
    (s.cache.length < s.max_size →
      (MemoryCache.set now k v ttl s).cache =
        MemoryCache.insertEntry k
          (MemoryCache.freshEntry now k v
            (MemoryCache.pyOr ttl s.default_ttl_hours)) s.cache ∧
      ∀ p ∈ s.cache, p.1 ≠ k →
        p ∈ (MemoryCache.set now k v ttl s).cache) ∧
    (s.max_size ≤ s.cache.length → s.cache ≠ [] →
      ∃ q, q ∈ s.cache ∧
        (∀ p ∈ s.cache, MemoryCache.accKey q.2 ≤ MemoryCache.accKey p.2) ∧
        (MemoryCache.set now k v ttl s).cache =
          MemoryCache.insertEntry k
            (MemoryCache.freshEntry now k v
              (MemoryCache.pyOr ttl s.default_ttl_hours))
            (MemoryCache.eraseKey q.1 s.cache) ∧
        (MemoryCache.eraseKey q.1 s.cache).length + 1 = s.cache.length) ∧
    (MemoryCache.SizeInv s →
      ∀ ops, (MemoryCache.runOps s ops).cache.length ≤ s.max_size) := by
  refine ⟨?_, ?_, ?_⟩
  · intro hlt
    have hgoal : (MemoryCache.set now k v ttl s).cache =
        MemoryCache.insertEntry k
          (MemoryCache.freshEntry now k v
            (MemoryCache.pyOr ttl s.default_ttl_hours)) s.cache := by
      simp [MemoryCache.set, Nat.not_le.mpr hlt]
    refine ⟨hgoal, ?_⟩
    intro p hp hne
    rw [hgoal]
    exact insertEntry_mem_of_ne k _ s.cache p hp hne
  · intro hful hne
    obtain ⟨p, rest, hc⟩ : ∃ p rest, s.cache = p :: rest := by
      cases hcc : s.cache with
      | nil => exact absurd hcc hne
      | cons p rest => exact ⟨p, rest, rfl⟩
    refine ⟨MemoryCache.lruSel p rest, ?_, ?_, ?_, ?_⟩
    · rw [hc]; exact lruSel_mem rest p
    · rw [hc]; exact lruSel_min rest p
    · have hful' : s.max_size ≤ (p :: rest).length := hc ▸ hful
      simp only [List.length_cons] at hful'
      simp [MemoryCache.set, hc, hful', MemoryCache.evictLRU]
    · rw [hc]
      exact eraseKey_length_of_mem _ _
        (List.mem_map_of_mem Prod.fst (lruSel_mem rest p))
  · intro hinv ops
    have h := sizeInv_runOps ops s hinv
    rw [← runOps_max_size ops s]
    exact h.2.1

/-- C3 (amended) witness: the counterexample state (full cache, existing
key) instantiates the eviction branch; the invariant branch is
instantiated with a singleton operation list. -/
theorem C3_lru_eviction_witness :
    (∃ q, q ∈ ([("a", (⟨"a", Val.vInt 1, 0, none, 0, none⟩ : CacheEntry)),
        ("b", ⟨"b", Val.vInt 2, 1, none, 0, none⟩)] :
          List (String × CacheEntry)) ∧
      (∀ p ∈ ([("a", (⟨"a", Val.vInt 1, 0, none, 0, none⟩ : CacheEntry)),
        ("b", ⟨"b", Val.vInt 2, 1, none, 0, none⟩)] :
          List (String × CacheEntry)),
        MemoryCache.accKey q.2 ≤ MemoryCache.accKey p.2) ∧
      (MemoryCache.set 5 "b" (Val.vInt 3) none
          ⟨[("a", ⟨"a", Val.vInt 1, 0, none, 0, none⟩),
            ("b", ⟨"b", Val.vInt 2, 1, none, 0, none⟩)], 2, 1⟩).cache =
        MemoryCache.insertEntry "b"
          (MemoryCache.freshEntry 5 "b" (Val.vInt 3)
            (MemoryCache.pyOr none 1))
          (MemoryCache.eraseKey q.1
            [("a", ⟨"a", Val.vInt 1, 0, none, 0, none⟩),
             ("b", ⟨"b", Val.vInt 2, 1, none, 0, none⟩)]) ∧
      (MemoryCache.eraseKey q.1
          [("a", ⟨"a", Val.vInt 1, 0, none, 0, none⟩),
           ("b", ⟨"b", Val.vInt 2, 1, none, 0, none⟩)]).length + 1 = 2) ∧
    (MemoryCache.runOps
      ⟨[("a", ⟨"a", Val.vInt 1, 0, none, 0, none⟩),
        ("b", ⟨"b", Val.vInt 2, 1, none, 0, none⟩)], 2, 1⟩
      [.opSet 5 "c" (Val.vInt 4) none]).cache.length ≤ 2 := by
  constructor
  · have h := (C3_lru_eviction
      ⟨[("a", ⟨"a", Val.vInt 1, 0, none, 0, none⟩),
        ("b", ⟨"b", Val.vInt 2, 1, none, 0, none⟩)], 2, 1⟩
      5 "b" (Val.vInt 3) none).2.1 (by decide) (by simp)
    simpa using h
  · exact (C3_lru_eviction
      ⟨[("a", ⟨"a", Val.vInt 1, 0, none, 0, none⟩),
        ("b", ⟨"b", Val.vInt 2, 1, none, 0, none⟩)], 2, 1⟩
      5 "b" (Val.vInt 3) none).2.2 ⟨by decide, by decide, by decide⟩
      [.opSet 5 "c" (Val.vInt 4) none]

theorem mtimeLe_trans : ∀ a b c : CFile, FileCache.mtimeLe a b →
    FileCache.mtimeLe b c → FileCache.mtimeLe a c := by
  intro a b c
  simp only [FileCache.mtimeLe, decide_eq_true_eq]
  omega

theorem mtimeLe_total : ∀ a b : CFile,
    FileCache.mtimeLe a b || FileCache.mtimeLe b a := by
  intro a b
  simp only [FileCache.mtimeLe, Bool.or_eq_true, decide_eq_true_eq]
  omega

/-- C7: on every `FileCache.set`, if the summed size of the cached files
strictly exceeds the `max_size_mb` budget, then exactly
`len(files) // 4` files — ones whose modification times are all no later
than those of every surviving file — are deleted before the new entry is
written; if the total is within the budget no file is deleted. -/
theorem C7_disk_cleanup (cfg : FileCacheCfg) (dir : List CFile) (now : Nat)
    (k : String) (v : Val) (ttl_hours : Option Nat) :
    (FileCache.dirTotalSize dir ≤ cfg.max_size_mb * 1024 * 1024 →
      FileCache.set cfg now k v ttl_hours dir =
        FileCache.writeFile (FileCache.newFileFor now k v ttl_hours) dir) ∧
    (cfg.max_size_mb * 1024 * 1024 < FileCache.dirTotalSize dir →
      ∃ deleted kept, dir.Perm (deleted ++ kept) ∧
        deleted.length = dir.length / 4 ∧
        (∀ d ∈ deleted, ∀ f ∈ kept, d.mtime ≤ f.mtime) ∧
        FileCache.set cfg now k v ttl_hours dir =
          FileCache.writeFile (FileCache.newFileFor now k v ttl_hours) kept) := by
  constructor
  · intro hle
    simp [FileCache.set, FileCache.cleanup_if_needed, Nat.not_lt.mpr hle]
  · intro hgt
    refine ⟨(dir.mergeSort FileCache.mtimeLe).take (dir.length / 4),
      (dir.mergeSort FileCache.mtimeLe).drop (dir.length / 4), ?_, ?_, ?_, ?_⟩
    · exact (List.mergeSort_perm dir FileCache.mtimeLe).symm.trans
        (List.Perm.of_eq (List.take_append_drop _ _).symm)
    · rw [List.length_take, List.length_mergeSort]
      exact Nat.min_eq_left (Nat.div_le_self _ _)
    · have hsorted := List.sorted_mergeSort mtimeLe_trans mtimeLe_total dir
      rw [← List.take_append_drop (dir.length / 4)
        (dir.mergeSort FileCache.mtimeLe)] at hsorted
      have hcross := (List.pairwise_append.mp hsorted).2.2
      intro d hd f hf
      have := hcross d hd f hf
      simpa [FileCache.mtimeLe] using this
    · simp [FileCache.set, FileCache.cleanup_if_needed, hgt]

/-- C7 witness: a 0 MB budget with four one-byte files (mtimes 0..3):
the write deletes exactly `4 // 4 = 1` file, an oldest one. -/
theorem C7_disk_cleanup_witness :
    ∃ deleted kept,
      ([⟨"f0", 1, 0, .corrupt⟩, ⟨"f1", 1, 1, .corrupt⟩,
        ⟨"f2", 1, 2, .corrupt⟩, ⟨"f3", 1, 3, .corrupt⟩] :
          List CFile).Perm (deleted ++ kept) ∧
      deleted.length = ([⟨"f0", 1, 0, .corrupt⟩, ⟨"f1", 1, 1, .corrupt⟩,
        ⟨"f2", 1, 2, .corrupt⟩, ⟨"f3", 1, 3, .corrupt⟩] :
          List CFile).length / 4 ∧
      (∀ d ∈ deleted, ∀ f ∈ kept, d.mtime ≤ f.mtime) ∧
      FileCache.set ⟨0⟩ 9 "k" (Val.vInt 1) none
          [⟨"f0", 1, 0, .corrupt⟩, ⟨"f1", 1, 1, .corrupt⟩,
           ⟨"f2", 1, 2, .corrupt⟩, ⟨"f3", 1, 3, .corrupt⟩] =
        FileCache.writeFile (FileCache.newFileFor 9 "k" (Val.vInt 1) none)
          kept :=
  (C7_disk_cleanup ⟨0⟩
      [⟨"f0", 1, 0, .corrupt⟩, ⟨"f1", 1, 1, .corrupt⟩,
       ⟨"f2", 1, 2, .corrupt⟩, ⟨"f3", 1, 3, .corrupt⟩]
      9 "k" (Val.vInt 1) none).2 (by decide)

theorem rowMajor_length {α : Type} (m n : Nat) (f : Nat → Nat → α) :
    ((List.range m).flatMap
      (fun r => (List.range n).map (f r))).length = m * n := by
  induction m with
  | zero => simp
  | succ m ih =>
    rw [List.range_succ, List.flatMap_append]
    simp [ih, Nat.succ_mul]

theorem rowMajor_get {α : Type} (m n : Nat) (f : Nat → Nat → α)
    (r c : Nat) (hr : r < m) (hc : c < n) :
    ((List.range m).flatMap
      (fun i => (List.range n).map (f i)))[r * n + c]? = some (f r c) := by
  induction m with
  | zero => omega
  | succ m ih =>
    rw [List.range_succ, List.flatMap_append]
    by_cases hrm : r < m
    · rw [List.getElem?_append_left]
      · exact ih hrm
      · rw [rowMajor_length]
        have h1 : (r + 1) * n ≤ m * n :=
          Nat.mul_le_mul_right n (Nat.succ_le_of_lt hrm)
        rw [Nat.add_mul, Nat.one_mul] at h1
        omega
    · have hrm' : r = m := by omega
      subst hrm'
      rw [List.getElem?_append_right]
      · rw [rowMajor_length, Nat.add_sub_cancel_left]
        simp [List.getElem?_map, hc]
      · rw [rowMajor_length]
        omega

/-- Geometry of one axis of the grid: with a positive card dimension, a
nonnegative nominal spacing and a card that fits the usable extent, every
grid index `j < cnt` places a card inside `[0, usable]` when offset by
`j * (card + actual_spacing)`. -/
theorem grid_fit (card sp uw : ℚ) (cnt j : Nat) (h : ℚ)
    (hcard : 0 < card) (hsp : 0 ≤ sp) (hfit : card ≤ uw)
    (hcnt : cnt = (max 1 ⌊(uw + sp) / (card + sp)⌋).toNat)
    (hh : h = if cnt ≤ 1 then 0 else (uw - cnt * card) / ((cnt : ℚ) - 1))
    (hj : j < cnt) :
    0 ≤ (j : ℚ) * (card + h) ∧ (j : ℚ) * (card + h) + card ≤ uw := by
  by_cases h1 : cnt ≤ 1
  · have hj0 : j = 0 := by omega
    subst hj0
    rw [hh, if_pos h1]
    constructor
    · simp
    · simpa using hfit
  · push_neg at h1
    have hcnt2 : (2 : ℚ) ≤ (cnt : ℚ) := by exact_mod_cast h1
    have hcsp : (0 : ℚ) < card + sp := by linarith
    have hfloor : (cnt : ℚ) ≤ (uw + sp) / (card + sp) := by
      have hF1 : (1 : Int) ≤ max 1 ⌊(uw + sp) / (card + sp)⌋ := le_max_left _ _
      have hcast : (cnt : Int) = max 1 ⌊(uw + sp) / (card + sp)⌋ := by
        rw [hcnt]
        exact Int.toNat_of_nonneg (by omega)
      have h2I : (2 : Int) ≤ max 1 ⌊(uw + sp) / (card + sp)⌋ := by
        rw [← hcast]
        exact_mod_cast h1
      have hmaxF : max 1 ⌊(uw + sp) / (card + sp)⌋ =
          ⌊(uw + sp) / (card + sp)⌋ := max_eq_right (by omega)
      have hci : (cnt : Int) = ⌊(uw + sp) / (card + sp)⌋ := hcast.trans hmaxF
      have := Int.floor_le ((uw + sp) / (card + sp))
      rw [← hci] at this
      exact_mod_cast this
    have hcc : (cnt : ℚ) * card ≤ uw := by
      have h2 : (cnt : ℚ) * (card + sp) ≤ uw + sp :=
        (le_div_iff hcsp).mp hfloor
      nlinarith
    have hh' : h = (uw - cnt * card) / ((cnt : ℚ) - 1) := by
      rw [hh, if_neg (by omega)]
    have hden : (0 : ℚ) < (cnt : ℚ) - 1 := by linarith
    have hh0 : 0 ≤ h := by
      rw [hh']
      exact div_nonneg (by linarith) hden.le
    have hmul : ((cnt : ℚ) - 1) * h = uw - cnt * card := by
      rw [hh', mul_comm, div_mul_cancel₀ _ (ne_of_gt hden)]
    have hjle : (j : ℚ) ≤ (cnt : ℚ) - 1 := by
      have : (j : ℚ) + 1 ≤ (cnt : ℚ) := by exact_mod_cast hj
      linarith
    constructor
    · exact mul_nonneg (by positivity) (by linarith)
    · have hstep : (j : ℚ) * (card + h) ≤ ((cnt : ℚ) - 1) * (card + h) :=
        mul_le_mul_of_nonneg_right hjle (by linarith)
      have hlast : ((cnt : ℚ) - 1) * (card + h) + card = uw := by
        have : ((cnt : ℚ) - 1) * (card + h) =
            ((cnt : ℚ) - 1) * card + (((cnt : ℚ) - 1) * h) := by ring
        rw [this, hmul]
        ring
      linarith

/-- C9: `get_card_positions` on a layout produced by
`calculate_optimal_layout` returns exactly `rows * cols` positions in
row-major order — the position at flat index `row * cols + col` is
`(margin + col * (card_width + actual_h_spacing), margin + row *
(card_height + actual_v_spacing))` — and, when the card fits the usable
area (the non-degenerate case) and the nominal spacing is nonnegative,
every card's bounding box lies within `usable_width × usable_height`
measured from the margin origin. -/
theorem C9_card_positions (cfg : LayoutCfg) (n : Nat)
    (hcw : 0 < cfg.card_width_mm) (hch : 0 < cfg.card_height_mm)
    (hsp : 0 ≤ cfg.card_spacing_mm)
    (hfitw : cfg.card_width_mm ≤ cfg.a4_width_mm - 2 * cfg.margin_mm)
    (hfith : cfg.card_height_mm ≤ cfg.a4_height_mm - 2 * cfg.margin_mm) :
    (PageLayoutManager.get_card_positions cfg
        (PageLayoutManager.calculate_optimal_layout cfg n)).length =
      (PageLayoutManager.calculate_optimal_layout cfg n).rows *
        (PageLayoutManager.calculate_optimal_layout cfg n).cols ∧
    (∀ r c, r < (PageLayoutManager.calculate_optimal_layout cfg n).rows →
      c < (PageLayoutManager.calculate_optimal_layout cfg n).cols →
      (PageLayoutManager.get_card_positions cfg
        (PageLayoutManager.calculate_optimal_layout cfg n))[
          r * (PageLayoutManager.calculate_optimal_layout cfg n).cols + c]? =
        some (cfg.margin_mm + c * (cfg.card_width_mm +
          (PageLayoutManager.calculate_optimal_layout
            cfg n).horizontal_spacing_mm),
          cfg.margin_mm + r * (cfg.card_height_mm +
            (PageLayoutManager.calculate_optimal_layout
              cfg n).vertical_spacing_mm))) ∧
    (∀ p ∈ PageLayoutManager.get_card_positions cfg
        (PageLayoutManager.calculate_optimal_layout cfg n),
      cfg.margin_mm ≤ p.1 ∧
      p.1 + cfg.card_width_mm ≤ cfg.margin_mm +
        (PageLayoutManager.calculate_optimal_layout cfg n).usable_width_mm ∧
      cfg.margin_mm ≤ p.2 ∧
      p.2 + cfg.card_height_mm ≤ cfg.margin_mm +
        (PageLayoutManager.calculate_optimal_layout
          cfg n).usable_height_mm) := by
  refine ⟨?_, ?_, ?_⟩
  · unfold PageLayoutManager.get_card_positions
    exact rowMajor_length _ _ _
  · intro r c hr hc
    unfold PageLayoutManager.get_card_positions
    exact rowMajor_get _ _ _ r c hr hc
  · intro p hp
    unfold PageLayoutManager.get_card_positions at hp
    rcases List.mem_flatMap.mp hp with ⟨r, hr, hpr⟩
    rcases List.mem_map.mp hpr with ⟨c, hcm, rfl⟩
    rw [List.mem_range] at hr hcm
    have hx := grid_fit cfg.card_width_mm cfg.card_spacing_mm
      (cfg.a4_width_mm - 2 * cfg.margin_mm)
      (PageLayoutManager.calculate_optimal_layout cfg n).cols c
      (PageLayoutManager.calculate_optimal_layout cfg n).horizontal_spacing_mm
      hcw hsp hfitw rfl rfl hcm
    have hy := grid_fit cfg.card_height_mm cfg.card_spacing_mm
      (cfg.a4_height_mm - 2 * cfg.margin_mm)
      (PageLayoutManager.calculate_optimal_layout cfg n).rows r
      (PageLayoutManager.calculate_optimal_layout cfg n).vertical_spacing_mm
      hch hsp hfith rfl rfl hr
    have huw : (PageLayoutManager.calculate_optimal_layout
        cfg n).usable_width_mm = cfg.a4_width_mm - 2 * cfg.margin_mm := rfl
    have huh : (PageLayoutManager.calculate_optimal_layout
        cfg n).usable_height_mm = cfg.a4_height_mm - 2 * cfg.margin_mm := rfl
    dsimp only
    refine ⟨?_, ?_, ?_, ?_⟩
    · linarith [hx.1]
    · rw [huw]; linarith [hx.2]
    · linarith [hy.1]
    · rw [huh]; linarith [hy.2]

/-- C9 witness: the default configuration with 20 cards (cards fit the
usable area); the layout yields 3 × 3 = 9 positions. -/
theorem C9_card_positions_witness :
    (PageLayoutManager.get_card_positions defaultLayoutCfg
        (PageLayoutManager.calculate_optimal_layout
          defaultLayoutCfg 20)).length =
      (PageLayoutManager.calculate_optimal_layout defaultLayoutCfg 20).rows *
        (PageLayoutManager.calculate_optimal_layout
          defaultLayoutCfg 20).cols :=
  (C9_card_positions defaultLayoutCfg 20
    (by norm_num [defaultLayoutCfg]) (by norm_num [defaultLayoutCfg])
    (by norm_num [defaultLayoutCfg]) (by norm_num [defaultLayoutCfg])
    (by norm_num [defaultLayoutCfg])).1

/-- C6 witness: the expired-entry case at a concrete state (entry expired
at hour 3, read at hour 5): the entry is purged and the read misses. -/
theorem C6_memory_get_cases_witness :
    MemoryCache.get 5 "k"
        ⟨[("k", ⟨"k", Val.vInt 1, 0, some 3, 0, none⟩)], 10, 1⟩ =
      (none, ⟨[], 10, 1⟩) := by
  have h := (C6_memory_get_cases
      ⟨[("k", ⟨"k", Val.vInt 1, 0, some 3, 0, none⟩)], 10, 1⟩ 5 "k").2.2.1
    ⟨"k", Val.vInt 1, 0, some 3, 0, none⟩ rfl rfl
  simpa [MemoryCache.eraseKey] using h

end PTCG
